import Mathlib

/-!
Verification of the py3dbp-container repository's packing engine layer.

The pure data model and the wrapper code (`Container`, `PackingEngine`,
`get_rotated_dimensions`, `get_load_efficiency`, `get_unfitted_stats`,
`add_items`) are embedded from `src/core/container.py`, `src/core/packer.py`
and `src/core/utils.py`.  Python floats are embedded as rationals; Python
lists as Lean lists; a method that raises becomes `Except String`.
The placement search itself lives in the external `py3dbp` library and is
modelled from the specification (section 4) where a claim depends on it.
-/

namespace PyContainer

/-- A 3D position, the `[x, y, z]` list carried by a py3dbp item. -/
structure Pos3 where
  x : ℚ
  y : ℚ
  z : ℚ
deriving DecidableEq, Repr

/-- A py3dbp item: identity, intrinsic dimensions, weight, plus the mutable
packing state (`rotation_type`, `position`). -/
structure Item where
  name : String
  width : ℚ
  height : ℚ
  depth : ℚ
  weight : ℚ
  rotation_type : Nat
  position : Pos3
deriving DecidableEq, Repr

/-- A freshly constructed item, as built by `Item.__init__` in py3dbp and used
by `PackingEngine.add_items`: rotation 0, position at the origin. -/
def Item.mk0 (name : String) (w h d wt : ℚ) : Item :=
  ⟨name, w, h, d, wt, 0, ⟨0, 0, 0⟩⟩

/-- `get_rotated_dimensions` from `src/core/utils.py`: the `rotation_map`
dictionary lookup with the unrotated dimensions as the `.get` default. -/
def get_rotated_dimensions (item : Item) : List ℚ :=
  match item.rotation_type with
  | 0 => [item.width, item.height, item.depth]
  | 1 => [item.height, item.width, item.depth]
  | 2 => [item.height, item.depth, item.width]
  | 3 => [item.depth, item.height, item.width]
  | 4 => [item.depth, item.width, item.height]
  | 5 => [item.width, item.depth, item.height]
  | _ => [item.width, item.height, item.depth]

/-- `Container` from `src/core/container.py`: name, dimensions, weight limit. -/
structure Container where
  name : String
  width : ℚ
  height : ℚ
  depth : ℚ
  max_weight : ℚ
deriving DecidableEq, Repr

/-- `Container.__init__` assigns the five attributes unconditionally; there is
no validation of any kind in the constructor. -/
def Container.init (name : String) (width height depth max_weight : ℚ) : Container :=
  ⟨name, width, height, depth, max_weight⟩

/-- `Container.volume`: `width * height * depth`. -/
def Container.volume (c : Container) : ℚ :=
  c.width * c.height * c.depth

/-- A py3dbp bin: the container data plus the `items` (fitted) and
`unfitted_items` lists that `pack()` fills in. -/
structure BinState where
  container : Container
  items : List Item
  unfitted_items : List Item
deriving DecidableEq, Repr

/-- The py3dbp `Packer`: a list of bins and the list of items added so far. -/
structure PackerState where
  bins : List BinState
  items : List Item
deriving DecidableEq, Repr

/-- `PackingEngine` from `src/core/packer.py`: the wrapped packer plus the
`_packed` flag set by `pack()`. -/
structure PackingEngine where
  packer : PackerState
  _packed : Bool
deriving DecidableEq, Repr

/-- `PackingEngine.__init__`: a fresh packer and `_packed = False`. -/
def PackingEngine.init : PackingEngine :=
  ⟨⟨[], []⟩, false⟩

/-- `PackingEngine.add_container`: `packer.add_bin(container.bin)`; py3dbp
`add_bin` appends a bin whose fitted and unfitted lists start empty. -/
def PackingEngine.add_container (e : PackingEngine) (c : Container) : PackingEngine :=
  { e with packer := { e.packer with bins := e.packer.bins ++ [⟨c, [], []⟩] } }

/-- py3dbp `Packer.add_item`: appends to the packer's item list. -/
def PackingEngine.add_item (e : PackingEngine) (it : Item) : PackingEngine :=
  { e with packer := { e.packer with items := e.packer.items ++ [it] } }

/-- The item-record rows consumed by `add_items` (name, dimensions, weight,
count). -/
structure ItemRecord where
  name : String
  width : ℚ
  height : ℚ
  depth : ℚ
  weight : ℚ
  count : Nat
deriving DecidableEq, Repr

/-- `PackingEngine.add_items`: the double loop
`for item in items: for i in range(item["count"]): add_item(...)`, each unit
item named `name_i`.  No validation of dimensions or weight is performed. -/
def PackingEngine.add_items (e : PackingEngine) (records : List ItemRecord) : PackingEngine :=
  records.foldl (fun acc r =>
    (List.range r.count).foldl (fun acc2 i =>
      acc2.add_item (Item.mk0 (r.name ++ "_" ++ toString i) r.width r.height r.depth r.weight))
      acc) e

/-- The value `packed_items` returns once the guard has passed:
`bins[0].items` when a bin exists, else `[]`. -/
def PackingEngine.packedList (e : PackingEngine) : List Item :=
  match e.packer.bins with
  | [] => []
  | b :: _ => b.items

/-- The value `unfitted_items` returns once the guard has passed:
`bins[0].unfitted_items` when a bin exists, else `[]`. -/
def PackingEngine.unfittedList (e : PackingEngine) : List Item :=
  match e.packer.bins with
  | [] => []
  | b :: _ => b.unfitted_items

/-- The `packed_items` property: raises `RuntimeError` when `_packed` is
false, embedded as `Except.error` with the source's message. -/
def PackingEngine.packed_items (e : PackingEngine) : Except String (List Item) :=
  if e._packed then .ok e.packedList
  else .error "Items have not been packed yet. Call pack() first."

/-- The `unfitted_items` property: raises `RuntimeError` when `_packed` is
false. -/
def PackingEngine.unfitted_items (e : PackingEngine) : Except String (List Item) :=
  if e._packed then .ok e.unfittedList
  else .error "Items have not been packed yet. Call pack() first."

/-- `PackingEngine.get_load_efficiency`: `0.0` when `_packed` is false, else
the sum over the packed items of `width * height * depth` divided by the
container's volume, times 100. -/
def PackingEngine.get_load_efficiency (e : PackingEngine) (c : Container) : ℚ :=
  if e._packed = false then 0
  else ((e.packedList.map fun it => it.width * it.height * it.depth).sum / c.volume) * 100

/-- Modelled from the spec: the rotation table of section 3, giving the
occupied `(width, height, depth)` triple of intrinsic dimensions `(w, h, d)`
under a rotation index.  Indices outside 0..5 are never produced by the
search. -/
def rotTriple (w h d : ℚ) : Nat → ℚ × ℚ × ℚ
  | 0 => (w, h, d)
  | 1 => (h, w, d)
  | 2 => (h, d, w)
  | 3 => (d, h, w)
  | 4 => (d, w, h)
  | 5 => (w, d, h)
  | _ => (w, h, d)

/-- Modelled from the spec: an axis-aligned box, minimum corner plus occupied
dimensions, as used by the placement search (section 4.1). -/
structure PBox where
  x : ℚ
  y : ℚ
  z : ℚ
  w : ℚ
  h : ℚ
  d : ℚ
deriving DecidableEq, Repr

/-- The occupied box of an item placed at position `p` with rotation `r`. -/
def mkBox (it : Item) (p : Pos3) (r : Nat) : PBox :=
  let t := rotTriple it.width it.height it.depth r
  ⟨p.x, p.y, p.z, t.1, t.2.1, t.2.2⟩

/-- The occupied box of an already placed item, from its recorded position and
rotation index. -/
def placedBox (it : Item) : PBox :=
  mkBox it it.position it.rotation_type

/-- Modelled from the spec: `box_fits_within` of section 4.1 — the box is at
non-negative coordinates and ends within the container on every axis. -/
def FitsIn (c : Container) (b : PBox) : Prop :=
  0 ≤ b.x ∧ 0 ≤ b.y ∧ 0 ≤ b.z ∧
    b.x + b.w ≤ c.width ∧ b.y + b.h ≤ c.height ∧ b.z + b.d ≤ c.depth

instance (c : Container) (b : PBox) : Decidable (FitsIn c b) := by
  unfold FitsIn; infer_instance

/-- Modelled from the spec: `boxes_overlap` of section 4.1 — positive-volume
intersection on all three axes; boxes that merely touch do not overlap. -/
def Overlap (a b : PBox) : Prop :=
  max a.x b.x < min (a.x + a.w) (b.x + b.w) ∧
    max a.y b.y < min (a.y + a.h) (b.y + b.h) ∧
    max a.z b.z < min (a.z + a.d) (b.z + b.d)

instance (a b : PBox) : Decidable (Overlap a b) := by
  unfold Overlap; infer_instance

/-- Modelled from the spec: the three checks of section 4.4 step 3a for one
(anchor, rotation) pair — containment, no overlap with any placed box, and
the weight limit. -/
def Placeable (c : Container) (boxes : List PBox) (wt : ℚ) (it : Item)
    (p : Pos3) (r : Nat) : Prop :=
  FitsIn c (mkBox it p r) ∧ (∀ q ∈ boxes, ¬ Overlap (mkBox it p r) q) ∧
    wt + it.weight ≤ c.max_weight

instance (c : Container) (boxes : List PBox) (wt : ℚ) (it : Item) (p : Pos3)
    (r : Nat) : Decidable (Placeable c boxes wt it p r) := by
  unfold Placeable; infer_instance

/-- Modelled from the spec: first-fit over rotation indices in numeric
order. -/
def searchRots (c : Container) (boxes : List PBox) (wt : ℚ) (it : Item)
    (p : Pos3) : List Nat → Option Nat
  | [] => none
  | r :: rs =>
      if Placeable c boxes wt it p r then some r
      else searchRots c boxes wt it p rs

/-- Modelled from the spec: first-fit over anchors in insertion order, each
anchor tried with rotations 0..5. -/
def searchAnchors (c : Container) (boxes : List PBox) (wt : ℚ) (it : Item) :
    List Pos3 → Option (Pos3 × Nat)
  | [] => none
  | p :: rest =>
      match searchRots c boxes wt it p [0, 1, 2, 3, 4, 5] with
      | some r => some (p, r)
      | none => searchAnchors c boxes wt it rest

/-- Modelled from the spec: `register` of section 4.3 — append an anchor
unless a coordinate-equal one is already present. -/
def register (anchors : List Pos3) (p : Pos3) : List Pos3 :=
  if p ∈ anchors then anchors else anchors ++ [p]

/-- Modelled from the spec: the running state of one packing run (section 4.4
step 2). -/
structure PackState where
  placed : List Item
  unfitted : List Item
  anchors : List Pos3
  weight : ℚ
deriving DecidableEq, Repr

/-- Intrinsic volume of an item, `width * height * depth` of the unrotated
dimensions. -/
def itemVolume (it : Item) : ℚ :=
  it.width * it.height * it.depth

/-- Modelled from the spec: processing of a single item (section 4.4 step 3):
place it at the first valid (anchor, rotation) pair and register the three
new anchors in x, y, z order, or mark it unfitted leaving the state
unchanged. -/
def packStep (c : Container) (st : PackState) (it : Item) : PackState :=
  match searchAnchors c (st.placed.map placedBox) st.weight it st.anchors with
  | some (p, r) =>
      let t := rotTriple it.width it.height it.depth r
      { placed := st.placed ++ [{ it with position := p, rotation_type := r }]
        unfitted := st.unfitted
        anchors := register (register (register st.anchors
          ⟨p.x + t.1, p.y, p.z⟩) ⟨p.x, p.y + t.2.1, p.z⟩) ⟨p.x, p.y, p.z + t.2.2⟩
        weight := st.weight + it.weight }
  | none => { st with unfitted := st.unfitted ++ [it] }

/-- Sort key of section 4.4 step 1: descending intrinsic volume, stable, so
ties keep input order. -/
def volumeGe (a b : Item) : Bool :=
  decide (itemVolume b ≤ itemVolume a)

/-- Modelled from the spec: the whole placement algorithm of section 4.4 for
one container — sort by descending volume, then greedy first-fit; returns
the (packed, unfitted) partition. -/
def specPack (c : Container) (items : List Item) : List Item × List Item :=
  let sorted := items.mergeSort volumeGe
  let final := sorted.foldl (packStep c) ⟨[], [], [⟨0, 0, 0⟩], 0⟩
  (final.placed, final.unfitted)

/-- `PackingEngine.pack`: runs the packer (placement search modelled from the
spec, filling the first bin's fitted and unfitted lists) and sets
`_packed = True`. -/
def PackingEngine.pack (e : PackingEngine) : PackingEngine :=
  { packer :=
      { e.packer with bins :=
          match e.packer.bins with
          | [] => []
          | b :: rest =>
              let res := specPack b.container e.packer.items
              { b with items := res.1, unfitted_items := res.2 } :: rest }
    _packed := true }

/-- `item.name.split(sep)[0]` for the separator `_`: the characters before
the first underscore (the whole string when it has no underscore). -/
def baseName (s : String) : String :=
  ⟨s.data.takeWhile fun c => c != '_'⟩

/-- One iteration of the `get_unfitted_stats` loop:
`stats[key] = stats.get(key, 0) + 1` on an insertion-ordered dictionary. -/
def bump : List (String × Nat) → String → List (String × Nat)
  | [], k => [(k, 1)]
  | (a, n) :: rest, k =>
      if a = k then (a, n + 1) :: rest else (a, n) :: bump rest k

/-- The dictionary built by `get_unfitted_stats` from a given unfitted list. -/
def unfittedStats (l : List Item) : List (String × Nat) :=
  l.foldl (fun s it => bump s (baseName it.name)) []

/-- `PackingEngine.get_unfitted_stats`: folds over `self.unfitted_items`
(which raises when `_packed` is false). -/
def PackingEngine.get_unfitted_stats (e : PackingEngine) :
    Except String (List (String × Nat)) :=
  e.unfitted_items.map unfittedStats

/-- The spec's description of count expansion (section 6): each record becomes
`count` unit items named `name_0 .. name_(count-1)`, in catalog order.  Stated
separately from `add_items` so the code's double loop can be compared with
it. -/
def expandedItems (records : List ItemRecord) : List Item :=
  records.flatMap fun r =>
    (List.range r.count).map fun i =>
      Item.mk0 (r.name ++ "_" ++ toString i) r.width r.height r.depth r.weight

/-- The pipeline used by the application layer (`main_class.py`, `gui.py`):
set up one container, add the item records, run `pack()`. -/
def runEngine (c : Container) (records : List ItemRecord) : PackingEngine :=
  ((PackingEngine.init.add_container c).add_items records).pack

/-- `PackingEngine` with every packed item's rotation index overwritten, used
to state that the assigned rotation does not affect the reported load
efficiency. -/
def setRotations (e : PackingEngine) (r : Nat) : PackingEngine :=
  { e with packer :=
      { e.packer with bins := e.packer.bins.map fun b =>
          { b with items := b.items.map fun it => { it with rotation_type := r } } } }

lemma foldl_add_item {β : Type} (f : β → Item) (l : List β) (e : PackingEngine) :
    l.foldl (fun acc b => acc.add_item (f b)) e =
      { e with packer := { e.packer with items := e.packer.items ++ l.map f } } := by
  induction l generalizing e with
  | nil => simp
  | cons hd tl ih =>
      rw [List.foldl_cons, ih]
      simp [PackingEngine.add_item, List.append_assoc]

lemma add_items_eq (e : PackingEngine) (records : List ItemRecord) :
    e.add_items records =
      { e with packer := { e.packer with items := e.packer.items ++ expandedItems records } } := by
  induction records generalizing e with
  | nil => simp [PackingEngine.add_items, expandedItems]
  | cons r rs ih =>
      simp only [PackingEngine.add_items, List.foldl_cons] at ih ⊢
      rw [foldl_add_item, ih]
      simp [expandedItems, List.append_assoc]

/-- Claim C1: for a packed item with rotation index 0..5,
`get_rotated_dimensions` returns exactly the permutation of
`(width, height, depth)` given by the spec's rotation table:
0 ↦ (w,h,d), 1 ↦ (h,w,d), 2 ↦ (h,d,w), 3 ↦ (d,h,w), 4 ↦ (d,w,h),
5 ↦ (w,d,h). -/
theorem rotation_table_contract (nm : String) (w h d wt : ℚ) (p : Pos3) :
    get_rotated_dimensions ⟨nm, w, h, d, wt, 0, p⟩ = [w, h, d] ∧
    get_rotated_dimensions ⟨nm, w, h, d, wt, 1, p⟩ = [h, w, d] ∧
    get_rotated_dimensions ⟨nm, w, h, d, wt, 2, p⟩ = [h, d, w] ∧
    get_rotated_dimensions ⟨nm, w, h, d, wt, 3, p⟩ = [d, h, w] ∧
    get_rotated_dimensions ⟨nm, w, h, d, wt, 4, p⟩ = [d, w, h] ∧
    get_rotated_dimensions ⟨nm, w, h, d, wt, 5, p⟩ = [w, d, h] :=
  ⟨rfl, rfl, rfl, rfl, rfl, rfl⟩

/-- Claim C10: `get_rotated_dimensions` is total over rotation indices — for
any rotation index outside 0..5 it falls back to the unrotated intrinsic
dimensions `[width, height, depth]` rather than failing. -/
theorem rotation_out_of_range_total (it : Item) (h : 6 ≤ it.rotation_type) :
    get_rotated_dimensions it = [it.width, it.height, it.depth] := by
  obtain ⟨nm, w, ht, d, wt, r, p⟩ := it
  simp only at h
  obtain ⟨n, rfl⟩ : ∃ n, r = n + 6 := ⟨r - 6, by omega⟩
  rfl

/-- Witness for C10 at rotation index 7. -/
theorem rotation_out_of_range_total_witness :
    6 ≤ (7 : Nat) ∧
      get_rotated_dimensions ⟨"x", 1, 2, 3, 4, 7, ⟨0, 0, 0⟩⟩ = [1, 2, 3] :=
  ⟨by decide, rotation_out_of_range_total ⟨"x", 1, 2, 3, 4, 7, ⟨0, 0, 0⟩⟩ (by decide)⟩

/-- Counterexample for C4: the engine does not reject malformed input — a
container with a negative width is constructed as-is by `Container.__init__`,
and `add_items` adds an item with negative width and negative weight to the
packer's item list instead of surfacing an error. -/
theorem invalid_input_not_rejected_cex :
    (Container.init "C" (-1) 2 3 10).width = -1 ∧
    ((PackingEngine.init.add_container (Container.init "C" (-1) 2 3 10)).add_items
        [⟨"bad", -1, 1, 1, -2, 1⟩]).packer.items =
      [Item.mk0 "bad_0" (-1) 1 1 (-2)] ∧
    ((PackingEngine.init.add_container (Container.init "C" (-1) 2 3 10)).add_items
        [⟨"bad", -1, 1, 1, -2, 1⟩]).packer.items ≠ [] := by
  exact ⟨rfl, rfl, by decide⟩

/-- Claim C4 (amended): neither `Container.__init__` nor
`PackingEngine.add_items` validates its input — a container invalid in any
dimension or in its max_weight is constructed with exactly the given
attributes, and an item record invalid in any dimension or with negative
weight still has all its `count` items appended to the packer unchanged,
leaving bins and the `_packed` flag untouched; no error path exists before
the placement search. -/
theorem no_input_validation (nm : String) (w h d mw : ℚ)
    (hc : w ≤ 0 ∨ h ≤ 0 ∨ d ≤ 0 ∨ mw ≤ 0)
    (e : PackingEngine) (r : ItemRecord)
    (hr : r.width ≤ 0 ∨ r.height ≤ 0 ∨ r.depth ≤ 0 ∨ r.weight < 0) :
    Container.init nm w h d mw = ⟨nm, w, h, d, mw⟩ ∧
    (e.add_items [r]).packer.items = e.packer.items ++ expandedItems [r] ∧
    (e.add_items [r]).packer.items.length = e.packer.items.length + r.count ∧
    (e.add_items [r]).packer.bins = e.packer.bins ∧
    (e.add_items [r])._packed = e._packed := by
  refine ⟨rfl, ?_, ?_, ?_, ?_⟩ <;>
    simp [add_items_eq, expandedItems]

/-- Witness for C4 (amended) at a container invalid only in its max_weight
(0) and a record invalid only in its weight (−2). -/
theorem no_input_validation_witness :
    ((0 : ℚ) ≤ 0) ∧ ((-2 : ℚ) < 0) ∧
      (Container.init "C" 5 2 3 0 = ⟨"C", 5, 2, 3, 0⟩ ∧
        (PackingEngine.init.add_items [⟨"bad", 1, 1, 1, -2, 1⟩]).packer.items =
          PackingEngine.init.packer.items ++ expandedItems [⟨"bad", 1, 1, 1, -2, 1⟩] ∧
        (PackingEngine.init.add_items [⟨"bad", 1, 1, 1, -2, 1⟩]).packer.items.length =
          PackingEngine.init.packer.items.length + 1 ∧
        (PackingEngine.init.add_items [⟨"bad", 1, 1, 1, -2, 1⟩]).packer.bins =
          PackingEngine.init.packer.bins ∧
        (PackingEngine.init.add_items [⟨"bad", 1, 1, 1, -2, 1⟩])._packed =
          PackingEngine.init._packed) :=
  ⟨by norm_num, by norm_num,
    no_input_validation "C" 5 2 3 0 (Or.inr (Or.inr (Or.inr (by norm_num))))
      PackingEngine.init ⟨"bad", 1, 1, 1, -2, 1⟩
      (Or.inr (Or.inr (Or.inr (by norm_num))))⟩

/-- Claim C5: `add_items` expands every record with count `n` into exactly
`n` items appended in catalog order, each sharing the record's dimensions and
weight, each named by suffixing the record's name with the index, matching
the spec's expansion `expandedItems` record by record. -/
theorem add_items_expansion (e : PackingEngine) (records : List ItemRecord) :
    (e.add_items records).packer.items = e.packer.items ++ expandedItems records ∧
    (e.add_items records).packer.items.length =
      e.packer.items.length + (records.map fun r => r.count).sum := by
  refine ⟨by simp [add_items_eq], ?_⟩
  simp only [add_items_eq, List.length_append]
  congr 1
  induction records with
  | nil => simp [expandedItems]
  | cons r rs ih => simp [expandedItems, List.flatMap_cons] at ih ⊢; omega

/-- An item whose three intrinsic dimensions are strictly positive, the
input constraint of spec section 4.4. -/
def ValidDims (it : Item) : Prop :=
  0 < it.width ∧ 0 < it.height ∧ 0 < it.depth

/-- The geometric invariant maintained by the placement fold: every placed
item has valid dimensions, every occupied box fits in the container, and the
occupied boxes are pairwise non-overlapping. -/
def GoodState (c : Container) (st : PackState) : Prop :=
  (∀ it ∈ st.placed, ValidDims it) ∧
  (∀ b ∈ st.placed.map placedBox, FitsIn c b) ∧
  (st.placed.map placedBox).Pairwise fun a b => ¬ Overlap a b

lemma rotTriple_prod (w h d : ℚ) (r : Nat) :
    (rotTriple w h d r).1 * (rotTriple w h d r).2.1 * (rotTriple w h d r).2.2 =
      w * h * d := by
  rcases r with _ | _ | _ | _ | _ | _ | r
  · rfl
  · show h * w * d = w * h * d
    ring
  · show h * d * w = w * h * d
    ring
  · show d * h * w = w * h * d
    ring
  · show d * w * h = w * h * d
    ring
  · show w * d * h = w * h * d
    ring
  · rfl

lemma rotTriple_pos (w h d : ℚ) (r : Nat) (hw : 0 < w) (hh : 0 < h) (hd : 0 < d) :
    0 < (rotTriple w h d r).1 ∧ 0 < (rotTriple w h d r).2.1 ∧
      0 < (rotTriple w h d r).2.2 := by
  rcases r with _ | _ | _ | _ | _ | _ | r <;>
    exact ⟨by assumption, by assumption, by assumption⟩

lemma overlap_comm (a b : PBox) : Overlap a b ↔ Overlap b a := by
  unfold Overlap
  rw [max_comm a.x b.x, min_comm (a.x + a.w) (b.x + b.w),
    max_comm a.y b.y, min_comm (a.y + a.h) (b.y + b.h),
    max_comm a.z b.z, min_comm (a.z + a.d) (b.z + b.d)]

lemma searchRots_placeable (c : Container) (boxes : List PBox) (wt : ℚ)
    (it : Item) (p : Pos3) :
    ∀ (rs : List Nat) (r : Nat),
      searchRots c boxes wt it p rs = some r → Placeable c boxes wt it p r := by
  intro rs
  induction rs with
  | nil => intro r h; simp [searchRots] at h
  | cons r0 rest ih =>
      intro r h
      unfold searchRots at h
      by_cases hpl : Placeable c boxes wt it p r0
      · rw [if_pos hpl] at h
        cases h
        exact hpl
      · rw [if_neg hpl] at h
        exact ih r h

lemma searchAnchors_placeable (c : Container) (boxes : List PBox) (wt : ℚ)
    (it : Item) :
    ∀ (ps : List Pos3) (p : Pos3) (r : Nat),
      searchAnchors c boxes wt it ps = some (p, r) →
        Placeable c boxes wt it p r := by
  intro ps
  induction ps with
  | nil => intro p r h; simp [searchAnchors] at h
  | cons p0 rest ih =>
      intro p r h
      unfold searchAnchors at h
      cases hsr : searchRots c boxes wt it p0 [0, 1, 2, 3, 4, 5] with
      | some r0 =>
          rw [hsr] at h
          simp only [Option.some.injEq, Prod.mk.injEq] at h
          obtain ⟨hp0, hr0⟩ := h
          subst hp0; subst hr0
          exact searchRots_placeable c boxes wt it p0 _ r0 hsr
      | none =>
          rw [hsr] at h
          exact ih p r h

lemma packStep_good (c : Container) (st : PackState) (it : Item)
    (hit : ValidDims it) (hst : GoodState c st) :
    GoodState c (packStep c st it) := by
  unfold packStep
  cases hsearch : searchAnchors c (st.placed.map placedBox) st.weight it st.anchors with
  | none => simpa [GoodState] using hst
  | some pr =>
      obtain ⟨p, r⟩ := pr
      obtain ⟨hfit, hnov, hwt⟩ :=
        searchAnchors_placeable c _ st.weight it st.anchors p r hsearch
      obtain ⟨hvd, hfits, hpw⟩ := hst
      refine ⟨?_, ?_, ?_⟩
      · intro x hx
        rcases List.mem_append.1 hx with hxo | hxn
        · exact hvd x hxo
        · rcases List.mem_singleton.1 hxn with rfl
          exact hit
      · intro b hb
        rw [List.map_append] at hb
        rcases List.mem_append.1 hb with hbo | hbn
        · exact hfits b hbo
        · rcases List.mem_singleton.1 (by simpa using hbn) with rfl
          exact hfit
      · rw [List.map_append, List.pairwise_append]
        refine ⟨hpw, by simp, ?_⟩
        intro a ha b hb
        rcases List.mem_singleton.1 (by simpa using hb) with rfl
        intro hov
        exact hnov a ha ((overlap_comm _ _).1 hov)

lemma foldl_packStep_good (c : Container) (l : List Item)
    (hl : ∀ it ∈ l, ValidDims it) (st : PackState) (hst : GoodState c st) :
    GoodState c (l.foldl (packStep c) st) := by
  induction l generalizing st with
  | nil => simpa
  | cons hd tl ih =>
      rw [List.foldl_cons]
      exact ih (fun it hit => hl it (List.mem_cons_of_mem _ hit)) _
        (packStep_good c st hd (hl hd (List.mem_cons_self _ _)) hst)

lemma specPack_good (c : Container) (items : List Item)
    (hvalid : ∀ it ∈ items, ValidDims it) :
    (∀ it ∈ (specPack c items).1, ValidDims it) ∧
    (∀ b ∈ (specPack c items).1.map placedBox, FitsIn c b) ∧
    ((specPack c items).1.map placedBox).Pairwise (fun a b => ¬ Overlap a b) := by
  have h := foldl_packStep_good c (items.mergeSort volumeGe)
    (fun it hit => hvalid it (List.mem_mergeSort.1 hit))
    ⟨[], [], [⟨0, 0, 0⟩], 0⟩ ⟨by simp, by simp, by simp⟩
  exact h

/-- The open real interval occupied by one axis of a box: from `lo` to
`lo + len`. -/
def axisIoo (lo len : ℚ) : Set ℝ :=
  Set.Ioo (lo : ℝ) ((lo : ℝ) + (len : ℝ))

/-- The three axis intervals of a box. -/
def PBox.sides (b : PBox) : Fin 3 → Set ℝ
  | 0 => axisIoo b.x b.w
  | 1 => axisIoo b.y b.h
  | 2 => axisIoo b.z b.d

/-- The open region of space occupied by a box. -/
def PBox.toSet (b : PBox) : Set (Fin 3 → ℝ) :=
  Set.univ.pi b.sides

/-- The three axis intervals of the container's interior. -/
def contSides (c : Container) : Fin 3 → Set ℝ
  | 0 => Set.Ioo 0 (c.width : ℝ)
  | 1 => Set.Ioo 0 (c.height : ℝ)
  | 2 => Set.Ioo 0 (c.depth : ℝ)

/-- The open interior of the container. -/
def contSet (c : Container) : Set (Fin 3 → ℝ) :=
  Set.univ.pi (contSides c)

lemma volume_axisIoo (lo len : ℚ) :
    MeasureTheory.volume (axisIoo lo len) = ENNReal.ofReal len := by
  rw [axisIoo, Real.volume_Ioo]
  congr 1
  ring

lemma sides_measurable (b : PBox) (i : Fin 3) : MeasurableSet (b.sides i) := by
  fin_cases i <;> exact measurableSet_Ioo

lemma toSet_measurable (b : PBox) : MeasurableSet b.toSet :=
  MeasurableSet.univ_pi (sides_measurable b)

lemma toSet_volume (b : PBox) :
    MeasureTheory.volume b.toSet =
      ENNReal.ofReal b.w * ENNReal.ofReal b.h * ENNReal.ofReal b.d := by
  rw [PBox.toSet, MeasureTheory.volume_pi_pi, Fin.prod_univ_three]
  rw [show b.sides 0 = axisIoo b.x b.w from rfl,
    show b.sides 1 = axisIoo b.y b.h from rfl,
    show b.sides 2 = axisIoo b.z b.d from rfl,
    volume_axisIoo, volume_axisIoo, volume_axisIoo]

lemma contSet_volume (c : Container) :
    MeasureTheory.volume (contSet c) =
      ENNReal.ofReal c.width * ENNReal.ofReal c.height * ENNReal.ofReal c.depth := by
  rw [contSet, MeasureTheory.volume_pi_pi, Fin.prod_univ_three]
  rw [show contSides c 0 = Set.Ioo 0 (c.width : ℝ) from rfl,
    show contSides c 1 = Set.Ioo 0 (c.height : ℝ) from rfl,
    show contSides c 2 = Set.Ioo 0 (c.depth : ℝ) from rfl]
  simp [Real.volume_Ioo]

lemma toSet_subset_contSet (c : Container) (b : PBox) (hf : FitsIn c b) :
    b.toSet ⊆ contSet c := by
  obtain ⟨h1, h2, h3, h4, h5, h6⟩ := hf
  rw [PBox.toSet, contSet]
  apply Set.pi_mono
  intro i _
  fin_cases i
  · refine Set.Ioo_subset_Ioo ?_ ?_
    · exact_mod_cast h1
    · exact_mod_cast h4
  · refine Set.Ioo_subset_Ioo ?_ ?_
    · exact_mod_cast h2
    · exact_mod_cast h5
  · refine Set.Ioo_subset_Ioo ?_ ?_
    · exact_mod_cast h3
    · exact_mod_cast h6

lemma axis_cases (e1 e2 m1 m2 : ℚ) (h : ¬ (max m1 m2 < min e1 e2)) :
    e1 ≤ m1 ∨ e1 ≤ m2 ∨ e2 ≤ m1 ∨ e2 ≤ m2 := by
  have hm := not_lt.1 h
  rcases min_le_iff.1 hm with h1 | h1 <;> rcases le_max_iff.1 h1 with h2 | h2 <;> tauto

lemma axis_cases_real (e1 e2 m1 m2 : ℚ) (h : ¬ (max m1 m2 < min e1 e2)) :
    ((e1 : ℝ) ≤ (m1 : ℝ)) ∨ ((e1 : ℝ) ≤ (m2 : ℝ)) ∨
      ((e2 : ℝ) ≤ (m1 : ℝ)) ∨ ((e2 : ℝ) ≤ (m2 : ℝ)) := by
  rcases axis_cases e1 e2 m1 m2 h with h4 | h4 | h4 | h4
  · exact Or.inl (by exact_mod_cast h4)
  · exact Or.inr (Or.inl (by exact_mod_cast h4))
  · exact Or.inr (Or.inr (Or.inl (by exact_mod_cast h4)))
  · exact Or.inr (Or.inr (Or.inr (by exact_mod_cast h4)))

lemma not_overlap_disjoint (a b : PBox) (h : ¬ Overlap a b) :
    Disjoint a.toSet b.toSet := by
  rw [Set.disjoint_left]
  intro f hfa hfb
  rw [PBox.toSet, Set.mem_univ_pi] at hfa hfb
  have ha0 := Set.mem_Ioo.1 (hfa 0)
  have ha1 := Set.mem_Ioo.1 (hfa 1)
  have ha2 := Set.mem_Ioo.1 (hfa 2)
  have hb0 := Set.mem_Ioo.1 (hfb 0)
  have hb1 := Set.mem_Ioo.1 (hfb 1)
  have hb2 := Set.mem_Ioo.1 (hfb 2)
  unfold Overlap at h
  have h3 : ¬ (max a.x b.x < min (a.x + a.w) (b.x + b.w)) ∨
      ¬ (max a.y b.y < min (a.y + a.h) (b.y + b.h)) ∨
      ¬ (max a.z b.z < min (a.z + a.d) (b.z + b.d)) := by tauto
  rcases h3 with hx | hy | hz
  · rcases axis_cases_real (a.x + a.w) (b.x + b.w) a.x b.x hx with h4 | h4 | h4 | h4 <;>
      (push_cast at h4; linarith [ha0.1, ha0.2, hb0.1, hb0.2])
  · rcases axis_cases_real (a.y + a.h) (b.y + b.h) a.y b.y hy with h4 | h4 | h4 | h4 <;>
      (push_cast at h4; linarith [ha1.1, ha1.2, hb1.1, hb1.2])
  · rcases axis_cases_real (a.z + a.d) (b.z + b.d) a.z b.z hz with h4 | h4 | h4 | h4 <;>
      (push_cast at h4; linarith [ha2.1, ha2.2, hb2.1, hb2.2])

/-- Union of the regions occupied by a list of boxes. -/
def boxesUnion (l : List PBox) : Set (Fin 3 → ℝ) :=
  l.foldr (fun b s => b.toSet ∪ s) ∅

lemma boxesUnion_measurable (l : List PBox) : MeasurableSet (boxesUnion l) := by
  induction l with
  | nil => exact MeasurableSet.empty
  | cons hd tl ih => exact (toSet_measurable hd).union ih

lemma disjoint_boxesUnion (a : PBox) (l : List PBox)
    (h : ∀ b ∈ l, Disjoint a.toSet b.toSet) :
    Disjoint a.toSet (boxesUnion l) := by
  induction l with
  | nil => simp [boxesUnion]
  | cons hd tl ih =>
      rw [show boxesUnion (hd :: tl) = hd.toSet ∪ boxesUnion tl from rfl,
        Set.disjoint_union_right]
      exact ⟨h hd (List.mem_cons_self _ _),
        ih fun b hb => h b (List.mem_cons_of_mem _ hb)⟩

lemma boxesUnion_volume (l : List PBox)
    (hp : l.Pairwise fun a b => Disjoint a.toSet b.toSet) :
    MeasureTheory.volume (boxesUnion l) =
      (l.map fun b => MeasureTheory.volume b.toSet).sum := by
  induction l with
  | nil => simp [boxesUnion]
  | cons hd tl ih =>
      rw [List.pairwise_cons] at hp
      rw [show boxesUnion (hd :: tl) = hd.toSet ∪ boxesUnion tl from rfl,
        MeasureTheory.measure_union (disjoint_boxesUnion hd tl hp.1)
          (boxesUnion_measurable tl),
        ih hp.2, List.map_cons, List.sum_cons]

lemma boxesUnion_subset (l : List PBox) (S : Set (Fin 3 → ℝ))
    (h : ∀ b ∈ l, b.toSet ⊆ S) : boxesUnion l ⊆ S := by
  induction l with
  | nil => simp [boxesUnion]
  | cons hd tl ih =>
      rw [show boxesUnion (hd :: tl) = hd.toSet ∪ boxesUnion tl from rfl]
      exact Set.union_subset (h hd (List.mem_cons_self _ _))
        (ih fun b hb => h b (List.mem_cons_of_mem _ hb))

lemma ofReal_list_sum (l : List ℝ) (h : ∀ x ∈ l, 0 ≤ x) :
    ENNReal.ofReal l.sum = (l.map ENNReal.ofReal).sum := by
  induction l with
  | nil => simp
  | cons hd tl ih =>
      rw [List.sum_cons, List.map_cons, List.sum_cons,
        ENNReal.ofReal_add (h hd (List.mem_cons_self _ _))
          (List.sum_nonneg fun x hx => h x (List.mem_cons_of_mem _ hx)),
        ih fun x hx => h x (List.mem_cons_of_mem _ hx)]

lemma boxes_volume_le (c : Container) (hw : 0 < c.width) (hh : 0 < c.height)
    (hd : 0 < c.depth) (l : List PBox)
    (hpos : ∀ b ∈ l, 0 < b.w ∧ 0 < b.h ∧ 0 < b.d)
    (hfit : ∀ b ∈ l, FitsIn c b)
    (hdisj : l.Pairwise fun a b => ¬ Overlap a b) :
    (l.map fun b => b.w * b.h * b.d).sum ≤ c.width * c.height * c.depth := by
  have hdisjS : l.Pairwise fun a b => Disjoint a.toSet b.toSet :=
    hdisj.imp fun hab => not_overlap_disjoint _ _ hab
  have hsum : (l.map fun b => MeasureTheory.volume b.toSet).sum ≤
      MeasureTheory.volume (contSet c) := by
    rw [← boxesUnion_volume l hdisjS]
    exact MeasureTheory.measure_mono
      (boxesUnion_subset l _ fun b hb => toSet_subset_contSet c b (hfit b hb))
  have hmap : (l.map fun b => MeasureTheory.volume b.toSet) =
      l.map fun b => ENNReal.ofReal ((b.w : ℝ) * (b.h : ℝ) * (b.d : ℝ)) := by
    apply List.map_congr_left
    intro b hb
    obtain ⟨h1, h2, h3⟩ := hpos b hb
    rw [toSet_volume, ENNReal.ofReal_mul (by positivity),
      ENNReal.ofReal_mul (by positivity)]
  have hofr : ENNReal.ofReal ((l.map fun b => (b.w : ℝ) * (b.h : ℝ) * (b.d : ℝ)).sum) ≤
      ENNReal.ofReal ((c.width : ℝ) * (c.height : ℝ) * (c.depth : ℝ)) := by
    rw [ofReal_list_sum _ ?hnn]
    case hnn =>
      intro x hx
      obtain ⟨b, hb, rfl⟩ := List.mem_map.1 hx
      obtain ⟨h1, h2, h3⟩ := hpos b hb
      positivity
    rw [List.map_map]
    have hcv : MeasureTheory.volume (contSet c) =
        ENNReal.ofReal ((c.width : ℝ) * (c.height : ℝ) * (c.depth : ℝ)) := by
      rw [contSet_volume, ENNReal.ofReal_mul (by positivity),
        ENNReal.ofReal_mul (by positivity)]
    rw [← hcv]
    calc (l.map (ENNReal.ofReal ∘ fun b => (b.w : ℝ) * (b.h : ℝ) * (b.d : ℝ))).sum
        = (l.map fun b => MeasureTheory.volume b.toSet).sum := by
          rw [hmap]; rfl
      _ ≤ MeasureTheory.volume (contSet c) := hsum
  have hreal : (l.map fun b => (b.w : ℝ) * (b.h : ℝ) * (b.d : ℝ)).sum ≤
      (c.width : ℝ) * (c.height : ℝ) * (c.depth : ℝ) :=
    (ENNReal.ofReal_le_ofReal_iff (by positivity)).1 hofr
  have hmapcast : (l.map fun b => (b.w : ℝ) * (b.h : ℝ) * (b.d : ℝ)) =
      l.map fun b => ((b.w * b.h * b.d : ℚ) : ℝ) := by
    apply List.map_congr_left
    intro b _
    push_cast
    ring
  rw [hmapcast] at hreal
  have hsumcast : (l.map fun b => ((b.w * b.h * b.d : ℚ) : ℝ)).sum =
      (((l.map fun b => b.w * b.h * b.d).sum : ℚ) : ℝ) := by
    rw [show (l.map fun b => ((b.w * b.h * b.d : ℚ) : ℝ)) =
        (l.map fun b => (b.w * b.h * b.d : ℚ)).map (fun q : ℚ => (q : ℝ)) by
      rw [List.map_map]; rfl]
    exact (map_list_sum (Rat.castHom ℝ) _).symm
  rw [hsumcast] at hreal
  exact_mod_cast hreal

lemma bump_lookup_self (s : List (String × Nat)) (k : String) :
    (bump s k).lookup k = some ((s.lookup k).getD 0 + 1) := by
  induction s with
  | nil => simp [bump]
  | cons p rest ih =>
      obtain ⟨a, n⟩ := p
      by_cases hak : a = k
      · subst hak
        simp [bump, List.lookup]
      · have hka : k ≠ a := fun hh => hak hh.symm
        have hb : (k == a) = false := beq_eq_false_iff_ne.2 hka
        simp [bump, hak, List.lookup, hb, ih]

lemma bump_lookup_ne (s : List (String × Nat)) (k k2 : String) (h : k2 ≠ k) :
    (bump s k).lookup k2 = s.lookup k2 := by
  induction s with
  | nil =>
      have hb : (k2 == k) = false := beq_eq_false_iff_ne.2 h
      simp [bump, List.lookup, hb]
  | cons p rest ih =>
      obtain ⟨a, n⟩ := p
      by_cases hak : a = k
      · subst hak
        have hb : (k2 == a) = false := beq_eq_false_iff_ne.2 h
        simp [bump, List.lookup, hb]
      · by_cases hka : k2 = a
        · subst hka
          simp [bump, hak, List.lookup]
        · have hb : (k2 == a) = false := beq_eq_false_iff_ne.2 hka
          simp [bump, hak, List.lookup, hb, ih]

lemma bump_sum (s : List (String × Nat)) (k : String) :
    ((bump s k).map Prod.snd).sum = (s.map Prod.snd).sum + 1 := by
  induction s with
  | nil => simp [bump]
  | cons p rest ih =>
      obtain ⟨a, n⟩ := p
      by_cases hak : a = k
      · subst hak; simp [bump]; omega
      · simp [bump, hak, ih]; omega

lemma bump_keys_mem (s : List (String × Nat)) (k k2 : String) :
    k2 ∈ (bump s k).map Prod.fst ↔ k2 ∈ s.map Prod.fst ∨ k2 = k := by
  induction s with
  | nil => simp [bump]
  | cons p rest ih =>
      obtain ⟨a, n⟩ := p
      by_cases hak : a = k
      · subst hak; simp [bump]; tauto
      · simp [bump, hak, ih]; tauto

lemma bump_keys_nodup (s : List (String × Nat)) (k : String)
    (h : (s.map Prod.fst).Nodup) : ((bump s k).map Prod.fst).Nodup := by
  induction s with
  | nil => simp [bump]
  | cons p rest ih =>
      obtain ⟨a, n⟩ := p
      simp only [List.map_cons, List.nodup_cons] at h
      by_cases hak : a = k
      · subst hak
        simpa [bump] using h
      · simp only [bump, if_neg hak, List.map_cons]
        refine List.nodup_cons.2 ⟨?_, ih h.2⟩
        rw [bump_keys_mem]
        push_neg
        exact ⟨h.1, hak⟩

lemma lookup_of_mem_nodup (s : List (String × Nat)) (p : String × Nat)
    (h : (s.map Prod.fst).Nodup) (hp : p ∈ s) : s.lookup p.1 = some p.2 := by
  induction s with
  | nil => simp at hp
  | cons q rest ih =>
      obtain ⟨a, n⟩ := q
      simp only [List.map_cons, List.nodup_cons] at h
      rcases List.mem_cons.1 hp with hpq | hpr
      · subst hpq
        simp [List.lookup]
      · have hne : p.1 ≠ a := by
          intro hh
          exact h.1 (hh ▸ List.mem_map.2 ⟨p, hpr, rfl⟩)
        have hb : (p.1 == a) = false := beq_eq_false_iff_ne.2 hne
        simp [List.lookup, hb, ih h.2 hpr]

lemma stats_fold_lookup (l : List Item) (s : List (String × Nat)) (k : String) :
    ((l.foldl (fun acc it => bump acc (baseName it.name)) s).lookup k).getD 0 =
      (s.lookup k).getD 0 + l.countP (fun it => baseName it.name == k) := by
  induction l generalizing s with
  | nil => simp
  | cons hd tl ih =>
      rw [List.foldl_cons, ih, List.countP_cons]
      by_cases hk : baseName hd.name = k
      · rw [← hk, bump_lookup_self]
        simp [hk]
        omega
      · have hkk : k ≠ baseName hd.name := fun hh => hk hh.symm
        rw [bump_lookup_ne _ _ _ hkk]
        simp [hk]

lemma stats_fold_sum (l : List Item) (s : List (String × Nat)) :
    (((l.foldl (fun acc it => bump acc (baseName it.name)) s)).map Prod.snd).sum =
      (s.map Prod.snd).sum + l.length := by
  induction l generalizing s with
  | nil => simp
  | cons hd tl ih =>
      rw [List.foldl_cons, ih, bump_sum]
      simp only [List.length_cons]
      omega

lemma stats_fold_keys (l : List Item) (s : List (String × Nat)) (k : String) :
    k ∈ ((l.foldl (fun acc it => bump acc (baseName it.name)) s)).map Prod.fst ↔
      k ∈ s.map Prod.fst ∨ ∃ it ∈ l, baseName it.name = k := by
  induction l generalizing s with
  | nil => simp
  | cons hd tl ih =>
      rw [List.foldl_cons, ih, bump_keys_mem]
      constructor
      · rintro (⟨h1 | h2⟩ | ⟨it, hit, hk⟩)
        · exact Or.inl h1
        · exact Or.inr ⟨hd, List.mem_cons_self _ _, h2.symm⟩
        · exact Or.inr ⟨it, List.mem_cons_of_mem _ hit, hk⟩
      · rintro (h1 | ⟨it, hit, hk⟩)
        · exact Or.inl (Or.inl h1)
        · rcases List.mem_cons.1 hit with rfl | hmem
          · exact Or.inl (Or.inr hk.symm)
          · exact Or.inr ⟨it, hmem, hk⟩

lemma stats_fold_nodup (l : List Item) (s : List (String × Nat))
    (h : (s.map Prod.fst).Nodup) :
    (((l.foldl (fun acc it => bump acc (baseName it.name)) s)).map Prod.fst).Nodup := by
  induction l generalizing s with
  | nil => simpa
  | cons hd tl ih =>
      rw [List.foldl_cons]
      exact ih _ (bump_keys_nodup _ _ h)

/-- Claim C6: for a packing run, every entry of `get_unfitted_stats` has as
key the portion of a generated item identity before the first underscore and
as value the number of unfitted items bearing that name, and the values sum
to the total number of unfitted items. -/
theorem unfitted_stats_per_name (e : PackingEngine) (stats : List (String × Nat))
    (hpk : e._packed = true) (hs : e.get_unfitted_stats = .ok stats)
    (p : String × Nat) (hp : p ∈ stats) :
    p.2 = e.unfittedList.countP (fun it => baseName it.name == p.1) ∧
    (∃ it ∈ e.unfittedList, baseName it.name = p.1) ∧
    (stats.map Prod.snd).sum = e.unfittedList.length := by
  have hstats : stats = unfittedStats e.unfittedList := by
    unfold PackingEngine.get_unfitted_stats PackingEngine.unfitted_items at hs
    rw [hpk] at hs
    simpa [Except.map] using hs.symm
  subst hstats
  unfold unfittedStats at hp ⊢
  refine ⟨?_, ?_, ?_⟩
  · have hnd := stats_fold_nodup e.unfittedList [] (by simp)
    have hlk := lookup_of_mem_nodup _ p hnd hp
    have := stats_fold_lookup e.unfittedList [] p.1
    rw [hlk] at this
    simpa using this
  · have hkey : p.1 ∈ ((e.unfittedList.foldl
        (fun acc it => bump acc (baseName it.name)) [])).map Prod.fst :=
      List.mem_map.2 ⟨p, hp, rfl⟩
    rcases (stats_fold_keys e.unfittedList [] p.1).1 hkey with h0 | h1
    · simp at h0
    · exact h1
  · simpa using stats_fold_sum e.unfittedList []

/-- Witness for C6 on a run with two unfitted `a` items and one `b` item. -/
theorem unfitted_stats_per_name_witness :
    (⟨⟨[⟨⟨"c", 1, 1, 1, 1⟩, [],
        [Item.mk0 "a_0" 9 9 9 1, Item.mk0 "b_0" 9 9 9 1, Item.mk0 "a_1" 9 9 9 1]⟩],
      []⟩, true⟩ : PackingEngine)._packed = true ∧
    (⟨⟨[⟨⟨"c", 1, 1, 1, 1⟩, [],
        [Item.mk0 "a_0" 9 9 9 1, Item.mk0 "b_0" 9 9 9 1, Item.mk0 "a_1" 9 9 9 1]⟩],
      []⟩, true⟩ : PackingEngine).get_unfitted_stats = .ok [("a", 2), ("b", 1)] ∧
    (("a", 2) ∈ [("a", 2), ("b", 1)] ∧
      ((2 : Nat) = (⟨⟨[⟨⟨"c", 1, 1, 1, 1⟩, [],
          [Item.mk0 "a_0" 9 9 9 1, Item.mk0 "b_0" 9 9 9 1, Item.mk0 "a_1" 9 9 9 1]⟩],
        []⟩, true⟩ : PackingEngine).unfittedList.countP
          (fun it => baseName it.name == "a") ∧
        (∃ it ∈ (⟨⟨[⟨⟨"c", 1, 1, 1, 1⟩, [],
            [Item.mk0 "a_0" 9 9 9 1, Item.mk0 "b_0" 9 9 9 1, Item.mk0 "a_1" 9 9 9 1]⟩],
          []⟩, true⟩ : PackingEngine).unfittedList, baseName it.name = "a") ∧
        (([("a", 2), ("b", 1)].map Prod.snd).sum =
          (⟨⟨[⟨⟨"c", 1, 1, 1, 1⟩, [],
              [Item.mk0 "a_0" 9 9 9 1, Item.mk0 "b_0" 9 9 9 1, Item.mk0 "a_1" 9 9 9 1]⟩],
            []⟩, true⟩ : PackingEngine).unfittedList.length))) :=
  ⟨rfl, by rfl, by simp,
    unfitted_stats_per_name
      (⟨⟨[⟨⟨"c", 1, 1, 1, 1⟩, [],
          [Item.mk0 "a_0" 9 9 9 1, Item.mk0 "b_0" 9 9 9 1, Item.mk0 "a_1" 9 9 9 1]⟩],
        []⟩, true⟩ : PackingEngine)
      [("a", 2), ("b", 1)] rfl (by rfl) ("a", 2) (by simp)⟩

/-- Claim C8: packing is deterministic — two runs on identical container and
item-record sequences produce identical engines, hence the same packed items
at the same positions with the same rotation indices in the same order, and
the same unfitted list. -/
theorem pack_deterministic (c1 c2 : Container) (r1 r2 : List ItemRecord)
    (hc : c1 = c2) (hr : r1 = r2) :
    runEngine c1 r1 = runEngine c2 r2 ∧
    (runEngine c1 r1).packed_items = (runEngine c2 r2).packed_items ∧
    (runEngine c1 r1).unfitted_items = (runEngine c2 r2).unfitted_items := by
  subst hc; subst hr; exact ⟨rfl, rfl, rfl⟩

/-- Witness for C8 on a concrete container and record list. -/
theorem pack_deterministic_witness :
    runEngine ⟨"c", 10, 10, 10, 100⟩ [⟨"a", 5, 5, 5, 1, 2⟩] =
      runEngine ⟨"c", 10, 10, 10, 100⟩ [⟨"a", 5, 5, 5, 1, 2⟩] :=
  (pack_deterministic ⟨"c", 10, 10, 10, 100⟩ ⟨"c", 10, 10, 10, 100⟩
    [⟨"a", 5, 5, 5, 1, 2⟩] [⟨"a", 5, 5, 5, 1, 2⟩] rfl rfl).1

/-- Claim C9: before `pack()` is called both item accessors raise
`RuntimeError` while `get_load_efficiency` returns 0 without raising; after
`pack()` has been called the accessors no longer raise. -/
theorem accessors_before_pack (e : PackingEngine) (c : Container)
    (h : e._packed = false) :
    e.packed_items = .error "Items have not been packed yet. Call pack() first." ∧
    e.unfitted_items = .error "Items have not been packed yet. Call pack() first." ∧
    e.get_load_efficiency c = 0 ∧
    (∀ e2 : PackingEngine, ∃ l u, e2.pack.packed_items = .ok l ∧
      e2.pack.unfitted_items = .ok u) := by
  refine ⟨?_, ?_, ?_, ?_⟩
  · simp [PackingEngine.packed_items, h]
  · simp [PackingEngine.unfitted_items, h]
  · simp [PackingEngine.get_load_efficiency, h]
  · intro e2
    exact ⟨e2.pack.packedList, e2.pack.unfittedList, rfl, rfl⟩

/-- Claim C2: after a packing run, `get_load_efficiency` equals the sum of
the packed items' intrinsic volumes divided by the container volume, times
100; the container volume is `width * height * depth`; and overwriting the
packed items' rotation indices leaves the efficiency unchanged, since each
item contributes its intrinsic `width * height * depth`. -/
theorem load_efficiency_formula (e : PackingEngine) (c : Container)
    (h : e._packed = true) :
    e.get_load_efficiency c =
      ((e.packedList.map fun it => it.width * it.height * it.depth).sum / c.volume) * 100 ∧
    c.volume = c.width * c.height * c.depth ∧
    (∀ r : Nat, (setRotations e r).get_load_efficiency c = e.get_load_efficiency c) := by
  refine ⟨by simp [PackingEngine.get_load_efficiency, h], rfl, ?_⟩
  intro r
  have hflag : (setRotations e r)._packed = e._packed := rfl
  have hl : (setRotations e r).packedList =
      e.packedList.map fun it => { it with rotation_type := r } := by
    unfold setRotations PackingEngine.packedList
    cases e.packer.bins <;> simp
  simp [PackingEngine.get_load_efficiency, hflag, h, hl, List.map_map, Function.comp_def]

/-- Witness for C2 on a packed two-cube run inside a 100³ container. -/
theorem load_efficiency_formula_witness :
    (runEngine ⟨"c", 100, 100, 100, 1000⟩ [⟨"a", 50, 50, 50, 100, 2⟩])._packed = true ∧
      (runEngine ⟨"c", 100, 100, 100, 1000⟩ [⟨"a", 50, 50, 50, 100, 2⟩]).get_load_efficiency
          ⟨"c", 100, 100, 100, 1000⟩ =
        (((runEngine ⟨"c", 100, 100, 100, 1000⟩
              [⟨"a", 50, 50, 50, 100, 2⟩]).packedList.map
                fun it => it.width * it.height * it.depth).sum /
            Container.volume ⟨"c", 100, 100, 100, 1000⟩) * 100 :=
  ⟨rfl, (load_efficiency_formula (runEngine ⟨"c", 100, 100, 100, 1000⟩
    [⟨"a", 50, 50, 50, 100, 2⟩]) ⟨"c", 100, 100, 100, 1000⟩ rfl).1⟩

/-- Claim C7: on a valid container, running the engine with an empty item
list is valid and yields an empty packed list, an empty unfitted list, and a
load efficiency of 0. -/
theorem empty_item_list_run (c : Container) (hw : 0 < c.width) (hh : 0 < c.height)
    (hd : 0 < c.depth) (hm : 0 < c.max_weight) :
    (runEngine c []).packed_items = .ok [] ∧
    (runEngine c []).unfitted_items = .ok [] ∧
    (runEngine c []).get_load_efficiency c = 0 := by
  have hspec : specPack c [] = ([], []) := by
    simp [specPack]
  have hrun : runEngine c [] =
      { packer := ⟨[⟨c, [], []⟩], []⟩, _packed := true } := by
    simp [runEngine, PackingEngine.init, PackingEngine.add_container,
      PackingEngine.add_items, PackingEngine.pack, hspec]
  refine ⟨by rw [hrun]; rfl, by rw [hrun]; rfl, ?_⟩
  rw [hrun]
  simp [PackingEngine.get_load_efficiency, PackingEngine.packedList]

/-- Witness for C7 on the default 40-foot container dimensions. -/
theorem empty_item_list_run_witness :
    (0 : ℚ) < 12.03 ∧ (0 : ℚ) < 2.39 ∧ (0 : ℚ) < 2.35 ∧ (0 : ℚ) < 28000 ∧
      ((runEngine ⟨"Container", 12.03, 2.39, 2.35, 28000⟩ []).packed_items = .ok [] ∧
        (runEngine ⟨"Container", 12.03, 2.39, 2.35, 28000⟩ []).unfitted_items = .ok [] ∧
        (runEngine ⟨"Container", 12.03, 2.39, 2.35, 28000⟩ []).get_load_efficiency
          ⟨"Container", 12.03, 2.39, 2.35, 28000⟩ = 0) :=
  ⟨by norm_num, by norm_num, by norm_num, by norm_num,
    empty_item_list_run ⟨"Container", 12.03, 2.39, 2.35, 28000⟩
      (by norm_num) (by norm_num) (by norm_num) (by norm_num)⟩

/-- Claim C3: for a valid container (positive dimensions and weight limit)
and a packing run over valid item records (positive dimensions, the input
constraint of spec section 4.4), the reported load efficiency lies between 0
and 100 — the pairwise-disjoint packed boxes contained in the container can
never occupy more than its volume. -/
theorem load_efficiency_bounds (c : Container) (records : List ItemRecord)
    (hw : 0 < c.width) (hh : 0 < c.height) (hd : 0 < c.depth)
    (hm : 0 < c.max_weight)
    (hrec : ∀ r ∈ records, 0 < r.width ∧ 0 < r.height ∧ 0 < r.depth) :
    0 ≤ (runEngine c records).get_load_efficiency c ∧
      (runEngine c records).get_load_efficiency c ≤ 100 := by
  have h1 : (PackingEngine.init.add_container c).add_items records =
      ⟨⟨[⟨c, [], []⟩], expandedItems records⟩, false⟩ := by
    rw [add_items_eq]
    rfl
  have hrun : runEngine c records =
      ⟨⟨[⟨c, (specPack c (expandedItems records)).1,
        (specPack c (expandedItems records)).2⟩], expandedItems records⟩, true⟩ := by
    rw [runEngine, h1]
    rfl
  have hvalid : ∀ it ∈ expandedItems records, ValidDims it := by
    intro it hit
    rw [expandedItems] at hit
    obtain ⟨r, hr, hit2⟩ := List.mem_flatMap.1 hit
    obtain ⟨i, _, rfl⟩ := List.mem_map.1 hit2
    exact hrec r hr
  obtain ⟨hvd, hfits, hpw⟩ := specPack_good c (expandedItems records) hvalid
  have hsumle : (((specPack c (expandedItems records)).1.map
      fun it => it.width * it.height * it.depth).sum) ≤
        c.width * c.height * c.depth := by
    have hb := boxes_volume_le c hw hh hd
      ((specPack c (expandedItems records)).1.map placedBox)
      (by
        intro b hb
        obtain ⟨it, hit, rfl⟩ := List.mem_map.1 hb
        obtain ⟨h1, h2, h3⟩ := hvd it hit
        exact rotTriple_pos it.width it.height it.depth it.rotation_type h1 h2 h3)
      hfits hpw
    rw [List.map_map] at hb
    have hmc : (specPack c (expandedItems records)).1.map
        ((fun b => b.w * b.h * b.d) ∘ placedBox) =
        (specPack c (expandedItems records)).1.map
          fun it => it.width * it.height * it.depth := by
      apply List.map_congr_left
      intro it _
      exact rotTriple_prod it.width it.height it.depth it.rotation_type
    rwa [hmc] at hb
  have hsumnn : 0 ≤ ((specPack c (expandedItems records)).1.map
      fun it => it.width * it.height * it.depth).sum := by
    apply List.sum_nonneg
    intro x hx
    obtain ⟨it, hit, rfl⟩ := List.mem_map.1 hx
    obtain ⟨h1, h2, h3⟩ := hvd it hit
    positivity
  have hv : 0 < c.volume := by
    rw [Container.volume]
    positivity
  have heff : (runEngine c records).get_load_efficiency c =
      (((specPack c (expandedItems records)).1.map
          fun it => it.width * it.height * it.depth).sum / c.volume) * 100 := by
    rw [hrun]
    rfl
  constructor
  · rw [heff]
    exact mul_nonneg (div_nonneg hsumnn hv.le) (by norm_num)
  · rw [heff]
    have hle1 : ((specPack c (expandedItems records)).1.map
        fun it => it.width * it.height * it.depth).sum / c.volume ≤ 1 := by
      rw [div_le_one hv]
      rw [Container.volume]
      exact hsumle
    have := mul_le_mul_of_nonneg_right hle1 (by norm_num : (0 : ℚ) ≤ 100)
    simpa using this

/-- Witness for C3 on spec scenario A: two 50³ cubes in a 100³ container. -/
theorem load_efficiency_bounds_witness :
    (0 : ℚ) < 100 ∧
      (0 ≤ (runEngine ⟨"c", 100, 100, 100, 1000⟩
          [⟨"a", 50, 50, 50, 100, 2⟩]).get_load_efficiency ⟨"c", 100, 100, 100, 1000⟩ ∧
        (runEngine ⟨"c", 100, 100, 100, 1000⟩
          [⟨"a", 50, 50, 50, 100, 2⟩]).get_load_efficiency ⟨"c", 100, 100, 100, 1000⟩ ≤ 100) :=
  ⟨by norm_num,
    load_efficiency_bounds ⟨"c", 100, 100, 100, 1000⟩ [⟨"a", 50, 50, 50, 100, 2⟩]
      (by decide) (by decide) (by decide) (by decide) (by decide)⟩

/-- Witness for C9 on a freshly initialized engine. -/
theorem accessors_before_pack_witness :
    PackingEngine.init._packed = false ∧
      PackingEngine.init.packed_items =
        .error "Items have not been packed yet. Call pack() first." :=
  ⟨rfl, (accessors_before_pack PackingEngine.init ⟨"c", 1, 1, 1, 1⟩ rfl).1⟩

end PyContainer
